import Mathlib

/-!
Shallow embedding of `software/metax/metaxcan/Utilities.py` (MetaXcan):
the alignment/context engine (`SimpleContext`, `OptimizedContext`), GWAS
normalization (`_prepare_gwas`, `_sanitized_gwas`), data intersection
(`_data_intersection`, `_data_intersection_2`) and output assembly
(`format_output`).

Modelling conventions:
* pandas DataFrames become Lean lists of structure rows (row order = frame
  row order); Python dicts become Lean functions into `Option` whose value
  at a key is the last-inserted entry for that key (Python dict insertion
  is last-write-wins);
* float64 payloads (weights, z-scores, betas) are `ℚ` for finite values;
  the non-finite floats that the code distinguishes (`numpy.isfinite`,
  `numpy.nan`) are the extra constructors of `ZVal`;
* a Python expression that can raise `KeyError` becomes an `Option`
  lookup, and a function that can raise becomes `Option`-valued (`none`
  = the call raises);
* the external covariance source (`MatrixManager.get` in non-strict mode)
  is an opaque function `Gene → List Snp → Option (List Snp) × M`:
  it returns the served SNP order (`none` = Python `None`, the
  unknown-gene sentinel) and an opaque matrix payload of type `M`.
-/

namespace MetaXcan

abbrev Snp := String
abbrev Gene := String

/-- A float64 value as the code observes it: finite (`ℚ`), `nan`
(also the missing-value sentinel of pandas), or `±inf`. -/
inductive ZVal : Type where
  | fin (q : ℚ)
  | nan
  | inf
  | ninf
deriving DecidableEq

/-- `numpy.isfinite` on a float64 value. -/
def ZVal.isFinite : ZVal → Bool
  | ZVal.fin _ => true
  | _ => false

/-- One row of `model.weights`: columns `gene`, `rsid`, `weight`
(positions `WDBQF.GENE`, `WDBQF.RSID`, `WDBQF.WEIGHT`). -/
structure WeightRow : Type where
  gene : Gene
  rsid : Snp
  weight : ℚ
deriving DecidableEq

/-- The loaded prediction model: its `weights` frame.  (The `extra`
ModelInfo frame is passed separately to `format_output` below, mirroring
`context.get_model_info()`.) -/
structure Model : Type where
  weights : List WeightRow

/-- One row of the sanitized GWAS frame: columns `snp`, `zscore`, `beta`
(in that column order, as produced by `_prepare_gwas`/`_sanitized_gwas`). -/
structure GwasRow : Type where
  snp : Snp
  zscore : ZVal
  beta : ZVal
deriving DecidableEq

/-- One row of the aligned table `{snp, weight, zscore, beta}` that
`provide_calculation` builds. -/
structure JoinRow : Type where
  snp : Snp
  weight : ℚ
  zscore : ZVal
  beta : ZVal
deriving DecidableEq

/-- The value a Python dict built by successive insertion holds at a key:
the LAST list element satisfying `p` (last-write-wins). -/
def findLast {α : Type} (p : α → Bool) : List α → Option α
  | [] => none
  | x :: xs =>
    match findLast p xs with
    | some y => some y
    | none => if p x then some x else none

/-- A Python list comprehension over `l` whose body can raise `KeyError`:
`none` as soon as one element fails. -/
def mapOption {α β : Type} (f : α → Option β) : List α → Option (List β)
  | [] => some []
  | x :: xs =>
    match f x, mapOption f xs with
    | some y, some ys => some (y :: ys)
    | _, _ => none

/-- `pandas.merge(w, gwas, left_on="rsid", right_on="snp")` followed by the
column restriction to `[snp, weight, zscore, beta]` (lines 46-48): an inner
join that keeps the left (weight) row order, each left row paired with its
matching right rows in right order. -/
def joinWG (w : List WeightRow) (g : List GwasRow) : List JoinRow :=
  w.flatMap (fun wr =>
    (g.filter (fun gr => gr.snp == wr.rsid)).map
      (fun gr => ⟨gr.snp, wr.weight, gr.zscore, gr.beta⟩))

/-- `SimpleContext` (Utilities.py lines 14-65): keeps the loaded frames
as-is and queries them relationally. -/
structure SimpleContext (M : Type) : Type where
  gwas : List GwasRow
  model : Model
  covariance : Gene → List Snp → Option (List Snp) × M

/-- `SimpleContext.get_weights`: `w[w.gene == gene]`. -/
def SimpleContext.get_weights {M : Type} (ctx : SimpleContext M) (gene : Gene) :
    List WeightRow :=
  ctx.model.weights.filter (fun r => r.gene == gene)

/-- `SimpleContext.get_gwas`: `g[g[SNP].isin(snps)]`. -/
def SimpleContext.get_gwas {M : Type} (ctx : SimpleContext M) (snps : List Snp) :
    List GwasRow :=
  ctx.gwas.filter (fun r => snps.contains r.snp)

/-- `SimpleContext.get_covariance`: delegate to the covariance source
(non-strict mode). -/
def SimpleContext.get_covariance {M : Type} (ctx : SimpleContext M) (gene : Gene)
    (snps : List Snp) : Option (List Snp) × M :=
  ctx.covariance gene snps

/-- `SimpleContext.get_model_snps`: `set(self.model.weights.rsid)`. -/
def SimpleContext.get_model_snps {M : Type} (ctx : SimpleContext M) : List Snp :=
  (ctx.model.weights.map (fun r => r.rsid)).dedup

/-- `SimpleContext.provide_calculation` (lines 42-62).  The alignment step
builds the dict `{x[0]: x for x in i.values}` (last row per SNP key) and
indexes it once per served SNP; a missing key raises `KeyError`, so the
whole call is `Option`-valued.  Returns
`(len(w.weight), aligned table, cov, snps)`. -/
def SimpleContext.provide_calculation {M : Type} (ctx : SimpleContext M)
    (gene : Gene) : Option (Nat × List JoinRow × M × Option (List Snp)) :=
  let w := ctx.get_weights gene
  let gwas := ctx.get_gwas (w.map (fun r => r.rsid))
  let i := joinWG w gwas
  let res := ctx.get_covariance gene (i.map (fun r => r.snp))
  match res.1 with
  | some order =>
    if order.isEmpty then
      some (w.length, [], res.2, some order)
    else
      match mapOption (fun s => findLast (fun r => r.snp == s) i) order with
      | some rows => some (w.length, rows, res.2, some order)
      | none => none
  | none => some (w.length, [], res.2, none)

/-- `_prepare_weight_data` (lines 187-197): groups the model's weight rows
by gene into a dict of row lists (insertion order inside a gene = source
row order; a gene is a key iff it has at least one row) and collects the
set of all rsids.  The dict is embedded as its lookup function; the
grouped list for a gene is exactly the order-preserving filter of the
rows frame by that gene. -/
def _prepare_weight_data (model : Model) :
    (Gene → Option (List WeightRow)) × List Snp :=
  (fun g =>
      let rows := model.weights.filter (fun r => r.gene == g)
      if rows.isEmpty then none else some rows,
   (model.weights.map (fun r => r.rsid)).dedup)

/-- `_prepare_gwas_data` (lines 175-179): dict snp → gwas row,
last-write-wins across duplicate snps. -/
def _prepare_gwas_data (gwas : List GwasRow) : Snp → Option GwasRow :=
  fun s => findLast (fun r => r.snp == s) gwas

/-- `OptimizedContext.__init__` (lines 67-72) stores the covariance source
and the pre-grouped structures. -/
structure OptimizedContext (M : Type) : Type where
  covariance : Gene → List Snp → Option (List Snp) × M
  weight_data : Gene → Option (List WeightRow)
  snps_in_model : List Snp
  gwas_data : Snp → Option GwasRow

/-- Build an `OptimizedContext` from the same loaded inputs a
`SimpleContext` would receive. -/
def OptimizedContext.build {M : Type} (gwas : List GwasRow) (model : Model)
    (covariance : Gene → List Snp → Option (List Snp) × M) : OptimizedContext M :=
  { covariance := covariance
    weight_data := (_prepare_weight_data model).1
    snps_in_model := (_prepare_weight_data model).2
    gwas_data := _prepare_gwas_data gwas }

/-- The key set of the per-gene dict `{rsid: weight}` built by
`OptimizedContext._get_weights` (distinct rsids of the gene's rows). -/
def wKeys (rows : List WeightRow) : List Snp :=
  (rows.map (fun r => r.rsid)).dedup

/-- The per-gene dict `{x[RSID]: x[WEIGHT] for x in w}` of
`OptimizedContext._get_weights` (line 74-77): last-write-wins over
duplicate rsids. -/
def wLookup (rows : List WeightRow) (s : Snp) : Option ℚ :=
  (findLast (fun r => r.rsid == s) rows).map (fun r => r.weight)

/-- `OptimizedContext.get_weights` (lines 79-82): `self.weight_data[gene]`
(a `KeyError` for a gene with no rows), then rebuild the frame. -/
def OptimizedContext.get_weights {M : Type} (ctx : OptimizedContext M)
    (gene : Gene) : Option (List WeightRow) :=
  ctx.weight_data gene

/-- `OptimizedContext.get_model_snps`: `set(self.snps_in_model)`. -/
def OptimizedContext.get_model_snps {M : Type} (ctx : OptimizedContext M) :
    List Snp :=
  ctx.snps_in_model

/-- `OptimizedContext._get_gwas(snps)` (lines 87-92): the dict
`{s: (zscore, beta)}` for the requested snps found in `gwas_data`,
embedded as its lookup function. -/
def OptimizedContext._get_gwas {M : Type} (ctx : OptimizedContext M)
    (snps : List Snp) : Snp → Option GwasRow :=
  fun s => if snps.contains s then ctx.gwas_data s else none

/-- `OptimizedContext.provide_calculation` (lines 108-127).  `w` is the
rsid→weight dict, `gwas` the snp→(zscore, beta) dict over `w.keys()`,
`d.keys()` the candidate set handed to the covariance source; the row
comprehension `[(x, w[x], gwas[x][0], gwas[x][1]) for x in snps]` can
raise `KeyError`.  Returns `(len(w), aligned table, cov, snps)`. -/
def OptimizedContext.provide_calculation {M : Type} (ctx : OptimizedContext M)
    (gene : Gene) : Option (Nat × List JoinRow × M × Option (List Snp)) :=
  match ctx.weight_data gene with
  | none => none
  | some rows =>
    let wk := wKeys rows
    let glook := ctx._get_gwas wk
    let dkeys := wk.filter (fun s => (glook s).isSome)
    let res := ctx.covariance gene dkeys
    match res.1 with
    | none => some (wk.length, [], res.2, none)
    | some order =>
      match mapOption (fun s =>
          match wLookup rows s, glook s with
          | some wt, some gr => some (⟨s, wt, gr.zscore, gr.beta⟩ : JoinRow)
          | _, _ => none) order with
      | some rows2 => some (wk.length, rows2, res.2, some order)
      | none => none

/-- `_data_intersection` (lines 133-138): inner-merge `weights × gwas` on
`rsid = snp`, then the de-duplicated gene and rsid columns. -/
def _data_intersection (model : Model) (gwas : List GwasRow) :
    List Gene × List Snp :=
  let k := model.weights.flatMap (fun wr =>
    (gwas.filter (fun gr => gr.snp == wr.rsid)).map (fun gr => (wr, gr)))
  ((k.map (fun x => x.1.gene)).dedup, (k.map (fun x => x.1.rsid)).dedup)

/-- `_data_intersection_2` (lines 140-149): walk the grouped weight rows;
a gene/rsid is collected iff the rsid is a key of `gwas_data`.  The loop
over the gene-grouped dict touches exactly the model's weight rows, so it
is embedded as a filter of the rows frame (sets are dedup lists). -/
def _data_intersection_2 (model : Model) (gwas_data : Snp → Option GwasRow) :
    List Gene × List Snp :=
  let hit := model.weights.filter (fun r => (gwas_data r.rsid).isSome)
  ((hit.map (fun r => r.gene)).dedup, (hit.map (fun r => r.rsid)).dedup)

end MetaXcan

namespace MetaXcan

/-! ### GWAS normalization: `_prepare_gwas` and `_sanitized_gwas` -/

/-- A raw z-score column entry before numeric casting: the "NA" sentinel
string, a value castable to float64, or an uncastable string. -/
inductive RawZ : Type where
  | na
  | num (q : ℚ)
  | bad (s : String)
deriving DecidableEq

/-- `astype(numpy.float64)` on one entry: succeeds on castable values,
raises on uncastable strings ("NA" included). -/
def castZ : RawZ → Option ℚ
  | RawZ.num q => some q
  | _ => none

/-- One row of the raw GWAS table handed to `_prepare_gwas`.  The `beta`
field carries the effect-size column and is meaningful only when the
enclosing table's `hasBeta` flag is set. -/
structure RawGwasRow : Type where
  snp : Snp
  zscore : RawZ
  beta : ZVal
deriving DecidableEq

/-- The raw GWAS table: rows plus whether a beta column exists. -/
structure RawGwasTable : Type where
  rows : List RawGwasRow
  hasBeta : Bool

/-- The z-score column of the prepared table: `f64` when the cast to
float64 succeeded, `raw` (the object column unchanged) when it failed. -/
inductive ZCol : Type where
  | f64 (q : ℚ)
  | raw (v : RawZ)
deriving DecidableEq

/-- One row of `_prepare_gwas`'s output (beta column always present). -/
structure PreparedRow : Type where
  snp : Snp
  zscore : ZCol
  beta : ZVal
deriving DecidableEq

/-- `_prepare_gwas` (lines 158-173).  Inside the `try`: rows whose
z-score is "NA" are dropped, then the z-score column is cast to float64;
`astype` raises iff some remaining entry is uncastable, in which case the
exception is caught, logged, and the (already NA-filtered) uncast frame
is used.  Afterwards, outside the `try`, a beta column of NaN is
synthesized when none exists.  Total: no exception escapes. -/
def _prepare_gwas (t : RawGwasTable) : List PreparedRow :=
  let filtered := t.rows.filter (fun r => !(r.zscore == RawZ.na))
  let bOf : RawGwasRow → ZVal := fun r => if t.hasBeta then r.beta else ZVal.nan
  if filtered.all (fun r => (castZ r.zscore).isSome) then
    filtered.map (fun r => ⟨r.snp, ZCol.f64 ((castZ r.zscore).getD 0), bOf r⟩)
  else
    filtered.map (fun r => ⟨r.snp, ZCol.raw r.zscore, bOf r⟩)

/-- Whether the float64 cast inside `_prepare_gwas` raises for table `t`
(an uncastable z-score survives the "NA" filter). -/
def castFails (t : RawGwasTable) : Bool :=
  !((t.rows.filter (fun r => !(r.zscore == RawZ.na))).all
    (fun r => (castZ r.zscore).isSome))

/-- A row of a GWAS frame that may carry extra columns beyond
{snp, zscore, beta}; the extra columns are opaque. -/
structure WideGwasRow : Type where
  snp : Snp
  zscore : ZVal
  beta : ZVal
  extra : List String
deriving DecidableEq

/-- `_sanitized_gwas` (lines 151-156): restrict the columns to
{snp, zscore, beta}; if any z-score is non-finite, log one warning and
keep only the finite-z-score rows.  The second component counts the
`logging.warning` calls made. -/
def _sanitized_gwas (gwas : List WideGwasRow) : List GwasRow × Nat :=
  let g := gwas.map (fun r => (⟨r.snp, r.zscore, r.beta⟩ : GwasRow))
  if g.any (fun r => !(r.zscore.isFinite)) then
    (g.filter (fun r => r.zscore.isFinite), 1)
  else
    (g, 0)

/-! ### Output assembly: `format_output` -/

/-- A cell of the output frame after `fillna("NA")`: a float, an int
(produced by `_to_int`), an infinity (not replaced by `fillna`, which
only replaces NaN), or the "NA" token. -/
inductive Cell : Type where
  | num (q : ℚ)
  | intc (n : ℤ)
  | pinf
  | ninf
  | NA
deriving DecidableEq

/-- `fillna("NA")` on one float64 value: NaN becomes the "NA" token. -/
def fillna : ZVal → Cell
  | ZVal.fin q => Cell.num q
  | ZVal.nan => Cell.NA
  | ZVal.inf => Cell.pinf
  | ZVal.ninf => Cell.ninf

/-- Python `int()` truncation toward zero on a rational. -/
def ratTrunc (q : ℚ) : ℤ := if 0 ≤ q then ⌊q⌋ else -⌊-q⌋

/-- `_to_int` (lines 237-243): `int(d)` when that does not raise, the
value unchanged otherwise ("NA" and the infinities raise). -/
def _to_int : Cell → Cell
  | Cell.num q => Cell.intc (ratTrunc q)
  | Cell.intc n => Cell.intc n
  | c => c

/-- `stats.norm.sf`.  Modelled from the spec: scipy's standard normal
survival function is `sf(x) = 1 - Φ(x)`, `Φ` being the standard normal
CDF, which stays an abstract parameter `cdf` of the assembler. -/
def norm_sf (cdf : ℚ → ℚ) (x : ℚ) : ℚ := 1 - cdf x

/-- Lines 248-251: `results[PVALUE] = numpy.nan` then
`results.loc[finite, PVALUE] = 2 * stats.norm.sf(abs(zscore[finite]))`. -/
def pvalueOf (cdf : ℚ → ℚ) (z : ZVal) : ZVal :=
  match z with
  | ZVal.fin q => ZVal.fin (2 * norm_sf cdf |q|)
  | _ => ZVal.nan

/-- One row of the per-gene association results handed to
`format_output`: gene, z-score, the statistic's companion columns, and
the raw `n_snps_in_model` column that line 246 drops. -/
structure ResultRow : Type where
  gene : Gene
  zscore : ZVal
  effect_size : ZVal
  var_g : ZVal
  n_snps_used : ZVal
  n_snps_in_cov : ZVal
  n_snps_in_model : Nat
deriving DecidableEq

/-- One row of the ModelInfo frame (`model.extra`). -/
structure ModelInfoRow : Type where
  gene : Gene
  gene_name : String
  pred_perf_r2 : ZVal
  pred_perf_pval : ZVal
  pred_perf_qval : ZVal
  n_snps_in_model : ZVal
deriving DecidableEq

/-- One row of `format_output`'s result, in the fixed 12-column order of
lines 261-272. -/
structure OutRow : Type where
  gene : Gene
  gene_name : String
  zscore : Cell
  effect_size : Cell
  pvalue : Cell
  var_g : Cell
  pred_perf_r2 : Cell
  pred_perf_pval : Cell
  pred_perf_qval : Cell
  n_snps_used : Cell
  n_snps_in_cov : Cell
  n_snps_in_model : Cell
deriving DecidableEq

/-- Python 2 mixed-type ascending comparison on a p-value cell after
`fillna`: numbers compare numerically, and every number compares less
than the "NA" string token (in Python 2 numeric types order before
`str`). -/
def cellLE : Cell → Cell → Bool
  | Cell.NA, b => decide (b = Cell.NA)
  | _, Cell.NA => true
  | Cell.ninf, _ => true
  | _, Cell.ninf => false
  | _, Cell.pinf => true
  | Cell.pinf, _ => false
  | Cell.num a, Cell.num b => decide (a ≤ b)
  | Cell.num a, Cell.intc n => decide (a ≤ (n : ℚ))
  | Cell.intc m, Cell.num b => decide ((m : ℚ) ≤ b)
  | Cell.intc m, Cell.intc n => decide (m ≤ n)

/-- One insertion step of the ascending comparison sort on the p-value
column. -/
def insertByPval (r : OutRow) : List OutRow → List OutRow
  | [] => [r]
  | x :: xs =>
    if cellLE r.pvalue x.pvalue then r :: x :: xs else x :: insertByPval r xs

/-- `merged.sort_values(by=PVALUE)` (line 279): a comparison sort,
ascending on the p-value column. -/
def sort_values : List OutRow → List OutRow
  | [] => []
  | r :: rs => insertByPval r (sort_values rs)

/-- `format_output` (lines 245-281): drop the raw `n_snps_in_model`
column, compute two-sided p-values from finite z-scores (NaN otherwise),
inner-merge with ModelInfo on gene (left/results row order preserved,
each results row paired with its matching ModelInfo rows in order),
optionally strip the Ensembl version (`split(".")` and keep the first
segment), lay out the fixed 12-column schema, `fillna("NA")`, coerce
`n_snps_in_cov` through `_to_int`, and sort ascending by p-value. -/
def format_output (cdf : ℚ → ℚ) (results : List ResultRow)
    (model_info : List ModelInfoRow) (remove_ens_version : Bool) : List OutRow :=
  let merged := results.flatMap (fun r =>
    (model_info.filter (fun m => m.gene == r.gene)).map (fun m => (r, m)))
  let outRows := merged.map (fun rm =>
    ({ gene := if remove_ens_version
          then ((rm.1.gene.splitOn ".").headD rm.1.gene) else rm.1.gene
       gene_name := rm.2.gene_name
       zscore := fillna rm.1.zscore
       effect_size := fillna rm.1.effect_size
       pvalue := fillna (pvalueOf cdf rm.1.zscore)
       var_g := fillna rm.1.var_g
       pred_perf_r2 := fillna rm.2.pred_perf_r2
       pred_perf_pval := fillna rm.2.pred_perf_pval
       pred_perf_qval := fillna rm.2.pred_perf_qval
       n_snps_used := fillna rm.1.n_snps_used
       n_snps_in_cov := _to_int (fillna rm.1.n_snps_in_cov)
       n_snps_in_model := fillna rm.2.n_snps_in_model } : OutRow))
  sort_values outRows

end MetaXcan

namespace MetaXcan

/-- Inputs for the p-value witness: an abstract CDF, one result row with
z-score 0, its ModelInfo row, and the expected output row. -/
def pvWitnessCdf : ℚ → ℚ := fun _ => 1/2

def pvWitnessResult : ResultRow :=
  ⟨"g", ZVal.fin 0, ZVal.nan, ZVal.nan, ZVal.nan, ZVal.nan, 1⟩

def pvWitnessInfo : ModelInfoRow :=
  ⟨"g", "GENE", ZVal.nan, ZVal.nan, ZVal.nan, ZVal.nan⟩

def pvWitnessRow : OutRow :=
  ⟨"g", "GENE", Cell.num 0, Cell.NA,
    Cell.num (2 * (1 - pvWitnessCdf |(0 : ℚ)|)),
    Cell.NA, Cell.NA, Cell.NA, Cell.NA, Cell.NA, Cell.NA, Cell.NA⟩

end MetaXcan

namespace MetaXcan

/-! ### Lemmas about the dict/list primitives -/

theorem findLast_cons {α : Type} (p : α → Bool) (x : α) (xs : List α) :
    findLast p (x :: xs) =
      match findLast p xs with
      | some y => some y
      | none => if p x then some x else none := rfl

theorem findLast_isSome {α : Type} (p : α → Bool) (l : List α) :
    (findLast p l).isSome = true ↔ ∃ x ∈ l, p x = true := by
  induction l with
  | nil => simp [findLast]
  | cons x xs ih =>
    rw [findLast_cons]
    cases hy : findLast p xs with
    | some y =>
      rw [hy] at ih
      simp only [Option.isSome_some, true_iff] at ih ⊢
      obtain ⟨z, hz, hpz⟩ := ih
      exact ⟨z, List.mem_cons_of_mem x hz, hpz⟩
    | none =>
      rw [hy] at ih
      simp only [Option.isSome_none, Bool.false_eq_true, false_iff] at ih
      by_cases hp : p x = true
      · simp only [if_pos hp, Option.isSome_some, true_iff]
        exact ⟨x, List.mem_cons_self x xs, hp⟩
      · simp only [if_neg hp, Option.isSome_none, Bool.false_eq_true, false_iff]
        intro hex
        obtain ⟨z, hz, hpz⟩ := hex
        rcases List.mem_cons.mp hz with rfl | hz2
        · exact hp hpz
        · exact ih ⟨z, hz2, hpz⟩

theorem findLast_some {α : Type} {p : α → Bool} {l : List α} {x : α}
    (h : findLast p l = some x) : x ∈ l ∧ p x = true := by
  induction l with
  | nil => cases h
  | cons y ys ih =>
    rw [findLast_cons] at h
    revert h
    cases hy : findLast p ys with
    | some z =>
      intro h
      have h2 : some z = some x := h
      cases h2
      obtain ⟨hz, hpz⟩ := ih hy
      exact ⟨List.mem_cons_of_mem y hz, hpz⟩
    | none =>
      intro h
      have h2 : (if p y = true then some y else none) = some x := h
      by_cases hp : p y = true
      · rw [if_pos hp] at h2
        cases h2
        exact ⟨List.mem_cons_self _ _, hp⟩
      · rw [if_neg hp] at h2
        cases h2

theorem findLast_eq_none {α : Type} {p : α → Bool} {l : List α}
    (h : ∀ x ∈ l, p x = false) : findLast p l = none := by
  induction l with
  | nil => rfl
  | cons x xs ih =>
    rw [findLast_cons, ih (fun y hy => h y (List.mem_cons_of_mem x hy))]
    simp [h x (List.mem_cons_self x xs)]

theorem findLast_map {α β : Type} (p : β → Bool) (f : α → β) (l : List α) :
    findLast p (l.map f) = (findLast (fun x => p (f x)) l).map f := by
  induction l with
  | nil => rfl
  | cons x xs ih =>
    rw [List.map_cons, findLast_cons, ih, findLast_cons]
    cases findLast (fun x => p (f x)) xs with
    | some y => rfl
    | none =>
      simp only [Option.map_none]
      by_cases hp : p (f x) = true
      · simp [hp]
      · simp [hp]

theorem findLast_filter {α : Type} (p q : α → Bool) (l : List α)
    (h : ∀ x, p x = true → q x = true) :
    findLast p (l.filter q) = findLast p l := by
  induction l with
  | nil => rfl
  | cons x xs ih =>
    by_cases hq : q x = true
    · rw [List.filter_cons_of_pos hq, findLast_cons, findLast_cons, ih]
    · rw [List.filter_cons_of_neg (by simp [hq]), findLast_cons, ih]
      have hp : p x = false := by
        cases hpx : p x with
        | false => rfl
        | true => exact absurd (h x hpx) hq
      cases hf : findLast p xs with
      | some y => rfl
      | none => simp [hp]

theorem mapOption_congr {α β : Type} {f g : α → Option β} {l : List α}
    (h : ∀ x ∈ l, f x = g x) : mapOption f l = mapOption g l := by
  induction l with
  | nil => rfl
  | cons x xs ih =>
    show (match f x, mapOption f xs with
      | some y, some ys => some (y :: ys)
      | _, _ => none) = _
    rw [h x (List.mem_cons_self x xs), ih (fun y hy => h y (List.mem_cons_of_mem x hy))]
    rfl

theorem mapOption_some_map {α β : Type} {f : α → Option β} {key : β → α}
    {l : List α} {ys : List β} (h : mapOption f l = some ys)
    (hkey : ∀ x y, f x = some y → key y = x) : ys.map key = l := by
  induction l generalizing ys with
  | nil => cases h; rfl
  | cons x xs ih =>
    revert h
    show (match f x, mapOption f xs with
      | some y, some ys => some (y :: ys)
      | _, _ => none) = some ys → _
    cases hx : f x with
    | none => intro h; cases h
    | some y =>
      cases hxs : mapOption f xs with
      | none => intro h; cases h
      | some zs =>
        intro h
        have h2 : some (y :: zs) = some ys := h
        cases h2
        rw [List.map_cons, hkey x y hx, ih hxs]

theorem mapOption_isSome {α β : Type} {f : α → Option β} {l : List α}
    (h : ∀ x ∈ l, (f x).isSome = true) : (mapOption f l).isSome = true := by
  induction l with
  | nil => rfl
  | cons x xs ih =>
    show (match f x, mapOption f xs with
      | some y, some ys => some (y :: ys)
      | _, _ => none).isSome = true
    obtain ⟨y, hy⟩ := Option.isSome_iff_exists.mp (h x (List.mem_cons_self x xs))
    obtain ⟨ys, hys⟩ := Option.isSome_iff_exists.mp
      (ih (fun z hz => h z (List.mem_cons_of_mem x hz)))
    rw [hy, hys]
    rfl

theorem mapOption_eq_none {α β : Type} {f : α → Option β} {l : List α} {x : α}
    (hx : x ∈ l) (hfx : f x = none) : mapOption f l = none := by
  induction l with
  | nil => cases hx
  | cons y ys ih =>
    show (match f y, mapOption f ys with
      | some y, some ys => some (y :: ys)
      | _, _ => none) = none
    rcases List.mem_cons.mp hx with rfl | hmem
    · rw [hfx]
    · rw [ih hmem]
      cases f y <;> rfl

theorem mapOption_length {α β : Type} {f : α → Option β} {l : List α}
    {ys : List β} (h : mapOption f l = some ys) : ys.length = l.length := by
  induction l generalizing ys with
  | nil => cases h; rfl
  | cons x xs ih =>
    revert h
    show (match f x, mapOption f xs with
      | some y, some ys => some (y :: ys)
      | _, _ => none) = some ys → _
    cases hx : f x with
    | none => intro h; cases h
    | some y =>
      cases hxs : mapOption f xs with
      | none => intro h; cases h
      | some zs =>
        intro h
        have h2 : some (y :: zs) = some ys := h
        cases h2
        simp [ih hxs]

end MetaXcan

namespace MetaXcan

/-! ### Lemmas about the three-way join -/

theorem findLast_append {α : Type} (p : α → Bool) (l₁ l₂ : List α) :
    findLast p (l₁ ++ l₂) =
      match findLast p l₂ with
      | some y => some y
      | none => findLast p l₁ := by
  induction l₁ with
  | nil =>
    simp only [List.nil_append]
    cases findLast p l₂ <;> rfl
  | cons x xs ih =>
    rw [List.cons_append, findLast_cons, ih, findLast_cons]
    cases findLast p l₂ with
    | some y => rfl
    | none => cases findLast p xs <;> rfl

theorem joinWG_cons (wr : WeightRow) (rows : List WeightRow) (g : List GwasRow) :
    joinWG (wr :: rows) g =
      (g.filter (fun gr => gr.snp == wr.rsid)).map
        (fun gr => ⟨gr.snp, wr.weight, gr.zscore, gr.beta⟩) ++ joinWG rows g := by
  simp [joinWG]

theorem joinWG_filter (rows : List WeightRow) (gwas : List GwasRow)
    (P : GwasRow → Bool)
    (h : ∀ wr ∈ rows, ∀ gr : GwasRow, gr.snp = wr.rsid → P gr = true) :
    joinWG rows (gwas.filter P) = joinWG rows gwas := by
  induction rows with
  | nil => rfl
  | cons wr rest ih =>
    rw [joinWG_cons, joinWG_cons, ih (fun w hw => h w (List.mem_cons_of_mem wr hw))]
    have hfilter : (gwas.filter P).filter (fun gr => gr.snp == wr.rsid) =
        gwas.filter (fun gr => gr.snp == wr.rsid) := by
      rw [List.filter_filter]
      apply List.filter_congr
      intro gr _
      cases hsnp : (gr.snp == wr.rsid) with
      | false => rfl
      | true =>
        have : P gr = true := h wr (List.mem_cons_self wr rest) gr (beq_iff_eq.mp hsnp)
        rw [this]
        rfl
    rw [hfilter]

/-- Looking up a SNP in the last-write-wins dict over the joined table
decomposes into the per-source last-row lookups: the join's last row for
key `s` pairs the gene's last weight row with rsid `s` and the GWAS's last
row with snp `s`. -/
theorem findLast_joinWG (rows : List WeightRow) (g : List GwasRow) (s : Snp) :
    findLast (fun r => r.snp == s) (joinWG rows g) =
      match findLast (fun wr => wr.rsid == s) rows,
            findLast (fun gr => gr.snp == s) g with
      | some wr, some gr => some ⟨gr.snp, wr.weight, gr.zscore, gr.beta⟩
      | _, _ => none := by
  induction rows with
  | nil =>
    show (none : Option JoinRow) = _
    cases findLast (fun gr => gr.snp == s) g <;> rfl
  | cons wr rest ih =>
    rw [joinWG_cons, findLast_append, ih, findLast_cons]
    cases hrest : findLast (fun wr => wr.rsid == s) rest with
    | some w2 =>
      cases hg : findLast (fun gr => gr.snp == s) g with
      | some gr => rfl
      | none =>
        show findLast (fun r => r.snp == s)
          ((g.filter (fun gr => gr.snp == wr.rsid)).map
            (fun gr => (⟨gr.snp, wr.weight, gr.zscore, gr.beta⟩ : JoinRow))) = none
        rw [findLast_map]
        have : findLast (fun gr =>
            ((⟨gr.snp, wr.weight, gr.zscore, gr.beta⟩ : JoinRow)).snp == s)
            (g.filter (fun gr => gr.snp == wr.rsid)) = none := by
          by_cases hws : wr.rsid = s
          · have : findLast (fun gr : GwasRow => gr.snp == s)
                (g.filter (fun gr => gr.snp == wr.rsid)) = none := by
              subst hws
              rw [findLast_filter (fun gr : GwasRow => gr.snp == wr.rsid)
                (fun gr => gr.snp == wr.rsid) g (fun x hx => hx)]
              exact hg
            exact this
          · apply findLast_eq_none
            intro gr hgr
            have h1 : gr.snp = wr.rsid := beq_iff_eq.mp (List.mem_filter.mp hgr).2
            show (gr.snp == s) = false
            rw [h1]
            exact beq_eq_false_iff_ne.mpr hws
        rw [this]
        rfl
    | none =>
      show findLast (fun r => r.snp == s)
        ((g.filter (fun gr => gr.snp == wr.rsid)).map
          (fun gr => (⟨gr.snp, wr.weight, gr.zscore, gr.beta⟩ : JoinRow))) = _
      rw [findLast_map]
      by_cases hws : wr.rsid = s
      · have heq : findLast (fun gr : GwasRow => gr.snp == s)
            (g.filter (fun gr => gr.snp == wr.rsid)) =
            findLast (fun gr : GwasRow => gr.snp == s) g := by
          subst hws
          exact findLast_filter _ _ g (fun x hx => hx)
        have hbeq : (wr.rsid == s) = true := beq_iff_eq.mpr hws
        rw [heq, hbeq]
        cases findLast (fun gr : GwasRow => gr.snp == s) g with
        | some gr => rfl
        | none => rfl
      · have hnone : findLast (fun gr : GwasRow => gr.snp == s)
            (g.filter (fun gr => gr.snp == wr.rsid)) = none := by
          apply findLast_eq_none
          intro gr hgr
          have h1 : gr.snp = wr.rsid := beq_iff_eq.mp (List.mem_filter.mp hgr).2
          show (gr.snp == s) = false
          rw [h1]
          exact beq_eq_false_iff_ne.mpr hws
        have hbeq : (wr.rsid == s) = false := beq_eq_false_iff_ne.mpr hws
        rw [hnone, hbeq]
        cases findLast (fun gr : GwasRow => gr.snp == s) g with
        | some gr => rfl
        | none => rfl

theorem mem_map_snp_iff (i : List JoinRow) (s : Snp) :
    s ∈ i.map (fun r => r.snp) ↔
      (findLast (fun r => r.snp == s) i).isSome = true := by
  rw [findLast_isSome]
  constructor
  · intro hs
    obtain ⟨r, hr, hrs⟩ := List.mem_map.mp hs
    exact ⟨r, hr, beq_iff_eq.mpr hrs⟩
  · intro ⟨r, hr, hrs⟩
    exact List.mem_map.mpr ⟨r, hr, beq_iff_eq.mp hrs⟩

theorem wLookup_isSome_iff (rows : List WeightRow) (s : Snp) :
    (wLookup rows s).isSome = true ↔ s ∈ wKeys rows := by
  rw [wKeys, List.mem_dedup]
  have hmap : (wLookup rows s).isSome = (findLast (fun r => r.rsid == s) rows).isSome := by
    rw [wLookup]
    cases findLast (fun r => r.rsid == s) rows <;> rfl
  rw [hmap, findLast_isSome]
  constructor
  · intro ⟨r, hr, hrs⟩
    exact List.mem_map.mpr ⟨r, hr, beq_iff_eq.mp hrs⟩
  · intro hs
    obtain ⟨r, hr, hrs⟩ := List.mem_map.mp hs
    exact ⟨r, hr, beq_iff_eq.mpr hrs⟩

/-- The two variants look up element-wise identical aligned rows: the
relational last-row dict of the Reference variant agrees pointwise with
the Optimized variant's `(x, w[x], gwas[x][0], gwas[x][1])` construction. -/
theorem lookup_pointwise (rows : List WeightRow) (gwas : List GwasRow) (s : Snp) :
    findLast (fun r => r.snp == s) (joinWG rows gwas) =
      match wLookup rows s,
            (if (wKeys rows).contains s then _prepare_gwas_data gwas s else none) with
      | some wt, some gr => some ⟨s, wt, gr.zscore, gr.beta⟩
      | _, _ => none := by
  rw [findLast_joinWG]
  cases hw : findLast (fun wr => wr.rsid == s) rows with
  | none =>
    have : wLookup rows s = none := by rw [wLookup, hw]; rfl
    rw [this]
  | some wr =>
    have hwl : wLookup rows s = some wr.weight := by rw [wLookup, hw]; rfl
    obtain ⟨hmem, hrs⟩ := findLast_some hw
    have hkey : (wKeys rows).contains s = true := by
      apply List.elem_iff.mpr
      rw [wKeys, List.mem_dedup]
      exact List.mem_map.mpr ⟨wr, hmem, beq_iff_eq.mp hrs⟩
    rw [hwl]
    have hif : (if (wKeys rows).contains s = true
        then _prepare_gwas_data gwas s else none) = _prepare_gwas_data gwas s :=
      if_pos hkey
    rw [hif, _prepare_gwas_data]
    cases hg : findLast (fun gr => gr.snp == s) gwas with
    | none => rfl
    | some gr =>
      have hgs : gr.snp = s := beq_iff_eq.mp (findLast_some hg).2
      show some (⟨gr.snp, wr.weight, gr.zscore, gr.beta⟩ : JoinRow)
          = some (⟨s, wr.weight, gr.zscore, gr.beta⟩ : JoinRow)
      rw [hgs]

end MetaXcan

namespace MetaXcan

/-- Behavioral equivalence of the two variants, under the data-model
expectation that a gene's weight rows have pairwise-distinct rsids, for a
gene present in the model, against a covariance source whose answer
depends only on the membership set of the candidate SNPs. -/
theorem provide_calculation_equiv {M : Type} (gwas : List GwasRow) (model : Model)
    (cov : Gene → List Snp → Option (List Snp) × M) (g : Gene)
    (hext : ∀ l l' : List Snp, (∀ s, s ∈ l ↔ s ∈ l') → cov g l = cov g l')
    (hnodup : ((model.weights.filter (fun r => r.gene == g)).map
      (fun r => r.rsid)).Nodup)
    (hne : model.weights.filter (fun r => r.gene == g) ≠ []) :
    SimpleContext.provide_calculation ⟨gwas, model, cov⟩ g =
      (OptimizedContext.build gwas model cov).provide_calculation g := by
  set rows := model.weights.filter (fun r => r.gene == g) with hrows
  have hempty : rows.isEmpty = false := by
    cases h : rows.isEmpty with
    | false => rfl
    | true => exact absurd (List.isEmpty_iff.mp h) hne
  have hwk : wKeys rows = rows.map (fun r => r.rsid) := by
    rw [wKeys, List.dedup_eq_self.mpr hnodup]
  have hlen : (wKeys rows).length = rows.length := by
    rw [hwk, List.length_map]
  have hjoin : joinWG rows
      (gwas.filter (fun r => (rows.map (fun r => r.rsid)).contains r.snp)) =
      joinWG rows gwas := by
    apply joinWG_filter
    intro wr hwr gr hgr
    apply List.elem_iff.mpr
    rw [hgr]
    exact List.mem_map.mpr ⟨wr, hwr, rfl⟩
  have hcand : ∀ s : Snp, s ∈ (joinWG rows gwas).map (fun r => r.snp) ↔
      s ∈ (wKeys rows).filter
        (fun s => (if (wKeys rows).contains s
          then _prepare_gwas_data gwas s else none).isSome) := by
    intro s
    rw [mem_map_snp_iff, lookup_pointwise]
    simp only [List.mem_filter]
    cases hwl : wLookup rows s with
    | none =>
      have hnot : s ∉ wKeys rows := by
        intro hk
        have := (wLookup_isSome_iff rows s).mpr hk
        rw [hwl] at this
        cases this
      constructor
      · intro hiss
        exfalso
        revert hiss
        cases (if (wKeys rows).contains s
            then _prepare_gwas_data gwas s else none) with
        | none => intro hiss; cases hiss
        | some gr => intro hiss; cases hiss
      · intro ⟨hk, _⟩
        exact absurd hk hnot
    | some wt =>
      have hk : s ∈ wKeys rows := (wLookup_isSome_iff rows s).mp (by rw [hwl]; rfl)
      have hc : (wKeys rows).contains s = true := List.elem_iff.mpr hk
      have hif : (if (wKeys rows).contains s = true
          then _prepare_gwas_data gwas s else none) = _prepare_gwas_data gwas s :=
        if_pos hc
      rw [hif]
      cases hgd : _prepare_gwas_data gwas s with
      | none =>
        constructor
        · intro hiss
          cases hiss
        · intro ⟨_, hsome⟩
          cases hsome
      | some gr =>
        constructor
        · intro _
          exact ⟨hk, rfl⟩
        · intro _
          rfl
  simp only [SimpleContext.provide_calculation, SimpleContext.get_weights,
    SimpleContext.get_gwas, SimpleContext.get_covariance,
    OptimizedContext.provide_calculation, OptimizedContext.build,
    OptimizedContext._get_gwas, _prepare_weight_data, ← hrows, hempty,
    Bool.false_eq_true, if_false, hjoin]
  rw [hext _ _ hcand]
  cases h1 : (cov g ((wKeys rows).filter
      (fun s => (if (wKeys rows).contains s
        then _prepare_gwas_data gwas s else none).isSome))).1 with
  | none =>
    dsimp only
    rw [hlen]
  | some order =>
    dsimp only
    have hfun : mapOption
        (fun s => findLast (fun r => r.snp == s) (joinWG rows gwas)) order =
        mapOption (fun s =>
          match wLookup rows s,
              (if (wKeys rows).contains s
                then _prepare_gwas_data gwas s else none) with
          | some wt, some gr => some (⟨s, wt, gr.zscore, gr.beta⟩ : JoinRow)
          | _, _ => none) order :=
      mapOption_congr (fun s _ => lookup_pointwise rows gwas s)
    rw [hfun]
    cases order with
    | nil =>
      rw [hlen]
      rfl
    | cons a l =>
      simp only [List.isEmpty_cons, Bool.false_eq_true, if_false]
      cases hmo : mapOption (fun s =>
          match wLookup rows s,
              (if (wKeys rows).contains s
                then _prepare_gwas_data gwas s else none) with
          | some wt, some gr => some (⟨s, wt, gr.zscore, gr.beta⟩ : JoinRow)
          | _, _ => none) (a :: l) with
      | none => rfl
      | some rows2 => rw [hlen]

end MetaXcan

namespace MetaXcan

/-! ### Lemmas about the p-value sort -/

theorem cellLE_total (a b : Cell) : cellLE a b = true ∨ cellLE b a = true := by
  cases a <;> cases b <;>
    simp only [cellLE, decide_eq_true_eq] <;>
    first
    | tauto
    | exact le_total _ _

theorem cellLE_trans {a b c : Cell} (h1 : cellLE a b = true)
    (h2 : cellLE b c = true) : cellLE a c = true := by
  cases a <;> cases b <;> cases c <;>
    simp only [cellLE, decide_eq_true_eq, Bool.false_eq_true] at h1 h2 ⊢ <;>
    first
    | rfl
    | exact h1.elim
    | exact h2.elim
    | exact le_trans h1 h2
    | (refine le_trans h1 ?_; exact_mod_cast h2)
    | (refine le_trans ?_ h2; exact_mod_cast h1)
    | exact_mod_cast le_trans h1 h2
    | exact h1
    | exact h2
    | exact Cell.noConfusion h1
    | exact Cell.noConfusion h2

theorem mem_insertByPval (r x : OutRow) (l : List OutRow) :
    x ∈ insertByPval r l ↔ x = r ∨ x ∈ l := by
  induction l with
  | nil => simp [insertByPval]
  | cons y ys ih =>
    simp only [insertByPval]
    by_cases h : cellLE r.pvalue y.pvalue = true
    · rw [if_pos h]
      simp only [List.mem_cons]
    · rw [if_neg h]
      simp only [List.mem_cons, ih]
      tauto

theorem pairwise_insertByPval (r : OutRow) (l : List OutRow)
    (hl : List.Pairwise (fun a b => cellLE a.pvalue b.pvalue = true) l) :
    List.Pairwise (fun a b => cellLE a.pvalue b.pvalue = true)
      (insertByPval r l) := by
  induction l with
  | nil => simp [insertByPval]
  | cons y ys ih =>
    rcases List.pairwise_cons.mp hl with ⟨hy, hys⟩
    simp only [insertByPval]
    by_cases h : cellLE r.pvalue y.pvalue = true
    · rw [if_pos h]
      refine List.pairwise_cons.mpr ⟨?_, hl⟩
      intro z hz
      rcases List.mem_cons.mp hz with rfl | hz2
      · exact h
      · exact cellLE_trans h (hy z hz2)
    · rw [if_neg h]
      refine List.pairwise_cons.mpr ⟨?_, ih hys⟩
      intro z hz
      rcases (mem_insertByPval r z ys).mp hz with hzr | hz2
      · rw [hzr]
        rcases cellLE_total y.pvalue r.pvalue with ht | ht
        · exact ht
        · exact absurd ht h
      · exact hy z hz2

theorem sort_values_pairwise (l : List OutRow) :
    List.Pairwise (fun a b => cellLE a.pvalue b.pvalue = true)
      (sort_values l) := by
  induction l with
  | nil => exact List.Pairwise.nil
  | cons r rs ih => exact pairwise_insertByPval r _ ih

theorem mem_sort_values (x : OutRow) (l : List OutRow) :
    x ∈ sort_values l ↔ x ∈ l := by
  induction l with
  | nil => simp [sort_values]
  | cons r rs ih =>
    simp only [sort_values, mem_insertByPval, ih, List.mem_cons]

end MetaXcan

namespace MetaXcan

/-! ### Claim C1: equivalence of the two variants -/

/-- C1 counterexample: with one gene holding two weight rows for the same
rsid (the data model does not enforce uniqueness), the Reference variant
returns `n_snps_in_model = 2` (`len(w.weight)`, the row count) while the
Optimized variant returns `1` (`len(w)`, the size of the rsid→weight
dict), so the two tuples are not element-wise identical. -/
theorem C1_duplicate_rsid_counterexample :
    SimpleContext.provide_calculation
        (⟨[], ⟨[⟨"g", "s", 1⟩, ⟨"g", "s", 2⟩]⟩,
          fun _ _ => ((none : Option (List Snp)), (0 : Nat))⟩ : SimpleContext Nat)
        "g" = some (2, [], 0, none) ∧
    (OptimizedContext.build []
        (⟨[⟨"g", "s", 1⟩, ⟨"g", "s", 2⟩]⟩ : Model)
        (fun _ _ => ((none : Option (List Snp)), (0 : Nat)))).provide_calculation
        "g" = some (1, [], 0, none) ∧
    some ((2 : Nat), ([] : List JoinRow), (0 : Nat), (none : Option (List Snp))) ≠
      some ((1 : Nat), ([] : List JoinRow), (0 : Nat), (none : Option (List Snp))) := by
  refine ⟨by decide, by decide, by decide⟩

/-- C1 (amended): for every gene that has at least one weight row and
whose weight rows carry pairwise-distinct rsids, and for a covariance
source whose answer depends only on the membership set of the candidate
SNPs it is handed, the Reference variant's `provide_calculation` and the
Optimized variant's `provide_calculation` return element-wise identical
tuples `(n_snps_in_model, aligned_table, matrix, snp_order)`. -/
theorem C1_provide_calculation_equivalence {M : Type} (gwas : List GwasRow)
    (model : Model) (cov : Gene → List Snp → Option (List Snp) × M) (g : Gene)
    (hext : ∀ l l' : List Snp, (∀ s, s ∈ l ↔ s ∈ l') → cov g l = cov g l')
    (hnodup : ((model.weights.filter (fun r => r.gene == g)).map
      (fun r => r.rsid)).Nodup)
    (hne : model.weights.filter (fun r => r.gene == g) ≠ []) :
    SimpleContext.provide_calculation ⟨gwas, model, cov⟩ g =
      (OptimizedContext.build gwas model cov).provide_calculation g :=
  provide_calculation_equiv gwas model cov g hext hnodup hne

/-- C1 witness: the equivalence theorem applied at the spec's §8 scenario
(gene G1, three weighted SNPs, two of them in the GWAS, covariance served
in the order [s2, s1]). -/
theorem C1_equivalence_witness :
    SimpleContext.provide_calculation
        (⟨[⟨"s1", ZVal.fin 2, ZVal.fin 1⟩, ⟨"s2", ZVal.fin (-1), ZVal.fin (-2)⟩],
          ⟨[⟨"G1", "s1", 5⟩, ⟨"G1", "s2", 3⟩, ⟨"G1", "s3", 1⟩]⟩,
          fun _ _ => (some ["s2", "s1"], (7 : Nat))⟩ : SimpleContext Nat) "G1" =
      (OptimizedContext.build
        [⟨"s1", ZVal.fin 2, ZVal.fin 1⟩, ⟨"s2", ZVal.fin (-1), ZVal.fin (-2)⟩]
        (⟨[⟨"G1", "s1", 5⟩, ⟨"G1", "s2", 3⟩, ⟨"G1", "s3", 1⟩]⟩ : Model)
        (fun _ _ => (some ["s2", "s1"], (7 : Nat)))).provide_calculation "G1" :=
  C1_provide_calculation_equivalence
    [⟨"s1", ZVal.fin 2, ZVal.fin 1⟩, ⟨"s2", ZVal.fin (-1), ZVal.fin (-2)⟩]
    ⟨[⟨"G1", "s1", 5⟩, ⟨"G1", "s2", 3⟩, ⟨"G1", "s3", 1⟩]⟩
    (fun _ _ => (some ["s2", "s1"], (7 : Nat))) "G1"
    (fun _ _ _ => rfl) (by decide) (by decide)

end MetaXcan

namespace MetaXcan

/-! ### Claim C2: the served SNP order is the aligned table's order -/

/-- C2: whenever `provide_calculation` (either variant) returns with a
non-absent served SNP order, the aligned table's rows appear in exactly
the served order, and the table has as many rows as the served order;
in particular every joined SNP absent from the served order is dropped. -/
theorem C2_order_invariant {M : Type} :
    (∀ (ctx : SimpleContext M) (g : Gene) (n : Nat) (t : List JoinRow) (m : M)
      (ord : List Snp),
      ctx.provide_calculation g = some (n, t, m, some ord) →
        t.map (fun r => r.snp) = ord ∧ t.length = ord.length) ∧
    (∀ (ctx : OptimizedContext M) (g : Gene) (n : Nat) (t : List JoinRow) (m : M)
      (ord : List Snp),
      ctx.provide_calculation g = some (n, t, m, some ord) →
        t.map (fun r => r.snp) = ord ∧ t.length = ord.length) := by
  constructor
  · intro ctx g n t m ord h
    simp only [SimpleContext.provide_calculation] at h
    split at h
    · split at h
      · rename_i order heq he
        have h2 := Option.some.inj h
        have ht : ([] : List JoinRow) = t := congrArg (fun p => p.2.1) h2
        have hord : order = ord :=
          Option.some.inj (congrArg (fun p => p.2.2.2) h2)
        subst hord
        rw [← ht, List.isEmpty_iff.mp he]
        exact ⟨rfl, rfl⟩
      · rename_i order heq he
        split at h
        · rename_i rows hmo
          have h2 := Option.some.inj h
          have ht : rows = t := congrArg (fun p => p.2.1) h2
          have hord : order = ord :=
            Option.some.inj (congrArg (fun p => p.2.2.2) h2)
          subst hord
          rw [← ht]
          exact ⟨mapOption_some_map hmo
              (fun s x hx => beq_iff_eq.mp (findLast_some hx).2),
            by rw [mapOption_length hmo]⟩
        · exact Option.noConfusion h
    · have h2 := Option.some.inj h
      exact Option.noConfusion (congrArg (fun p => p.2.2.2) h2)
  · intro ctx g n t m ord h
    simp only [OptimizedContext.provide_calculation] at h
    split at h
    · exact Option.noConfusion h
    · rename_i rows hwd
      split at h
      · have h2 := Option.some.inj h
        exact Option.noConfusion (congrArg (fun p => p.2.2.2) h2)
      · rename_i order heq
        split at h
        · rename_i rows2 hmo
          have h2 := Option.some.inj h
          have ht : rows2 = t := congrArg (fun p => p.2.1) h2
          have hord : order = ord :=
            Option.some.inj (congrArg (fun p => p.2.2.2) h2)
          subst hord
          rw [← ht]
          refine ⟨mapOption_some_map hmo ?_, by rw [mapOption_length hmo]⟩
          intro s x hx
          revert hx
          cases wLookup rows s with
          | none => intro hx; exact Option.noConfusion hx
          | some wt =>
            cases ctx._get_gwas (wKeys rows) s with
            | none => intro hx; exact Option.noConfusion hx
            | some gr => intro hx; rw [← Option.some.inj hx]
        · exact Option.noConfusion h

/-- C2 witness: at the spec's §8 scenario the Reference variant serves
order [s2, s1] and the aligned table lists exactly those SNPs in that
order. -/
theorem C2_order_invariant_witness :
    ([⟨"s2", 3, ZVal.fin (-1), ZVal.fin (-2)⟩,
      ⟨"s1", 5, ZVal.fin 2, ZVal.fin 1⟩] : List JoinRow).map (fun r => r.snp) =
        ["s2", "s1"] ∧
    ([⟨"s2", 3, ZVal.fin (-1), ZVal.fin (-2)⟩,
      ⟨"s1", 5, ZVal.fin 2, ZVal.fin 1⟩] : List JoinRow).length =
        (["s2", "s1"] : List Snp).length :=
  (C2_order_invariant (M := Nat)).1
    (⟨[⟨"s1", ZVal.fin 2, ZVal.fin 1⟩, ⟨"s2", ZVal.fin (-1), ZVal.fin (-2)⟩],
      ⟨[⟨"G1", "s1", 5⟩, ⟨"G1", "s2", 3⟩, ⟨"G1", "s3", 1⟩]⟩,
      fun _ _ => (some ["s2", "s1"], (7 : Nat))⟩ : SimpleContext Nat) "G1"
    3 [⟨"s2", 3, ZVal.fin (-1), ZVal.fin (-2)⟩, ⟨"s1", 5, ZVal.fin 2, ZVal.fin 1⟩]
    7 ["s2", "s1"] (by decide)

end MetaXcan

namespace MetaXcan

/-! ### Claim C3: unknown gene at the covariance source -/

/-- C3 counterexample: for a gene holding two weight rows with the same
rsid and a covariance source that reports the gene unknown, the Optimized
variant returns `n_snps_in_model = 1` (the size of its rsid→weight dict),
not `2`, the count of the gene's original weight rows before the GWAS
join that the claim requires. -/
theorem C3_unknown_gene_counterexample :
    (OptimizedContext.build []
        (⟨[⟨"g", "s", 1⟩, ⟨"g", "s", 2⟩]⟩ : Model)
        (fun _ _ => ((none : Option (List Snp)), (0 : Nat)))).provide_calculation
      "g" = some (1, [], 0, none) ∧
    ((⟨[⟨"g", "s", 1⟩, ⟨"g", "s", 2⟩]⟩ : Model).weights.filter
      (fun r => r.gene == "g")).length = 2 ∧
    (1 : Nat) ≠ 2 := by
  refine ⟨by decide, by decide, by decide⟩

/-- C3 (amended): when the covariance source returns an absent SNP order,
`provide_calculation` returns immediately, without failing, the tuple
`(n, empty table, returned matrix, absent)`, where `n` is the length of
the variant's own weight structure for the gene: the count of the gene's
original weight rows for the Reference variant, and the number of
distinct rsids among those rows for the Optimized variant (the two
lengths coincide when the gene's rsids are pairwise distinct). -/
theorem C3_unknown_gene_return {M : Type} :
    (∀ (ctx : SimpleContext M) (g : Gene) (m : M),
      ctx.covariance g ((joinWG (ctx.get_weights g)
        (ctx.get_gwas ((ctx.get_weights g).map (fun r => r.rsid)))).map
          (fun r => r.snp)) = (none, m) →
      ctx.provide_calculation g =
        some ((ctx.get_weights g).length, [], m, none)) ∧
    (∀ (ctx : OptimizedContext M) (g : Gene) (rows : List WeightRow) (m : M),
      ctx.weight_data g = some rows →
      ctx.covariance g ((wKeys rows).filter
        (fun s => (ctx._get_gwas (wKeys rows) s).isSome)) = (none, m) →
      ctx.provide_calculation g =
        some ((wKeys rows).length, [], m, none)) := by
  constructor
  · intro ctx g m hcov
    simp only [SimpleContext.provide_calculation, SimpleContext.get_covariance,
      hcov]
  · intro ctx g rows m hwd hcov
    simp only [OptimizedContext.provide_calculation, hwd, hcov]

/-- C3 witness: a model with gene g2 (distinct rsids) and a covariance
source that knows no gene: both variants return the early tuple, with
n = 2 = the gene's weight-row count. -/
theorem C3_unknown_gene_witness :
    SimpleContext.provide_calculation
      (⟨[⟨"s1", ZVal.fin 2, ZVal.fin 1⟩],
        ⟨[⟨"g2", "s1", 5⟩, ⟨"g2", "s2", 3⟩]⟩,
        fun _ _ => ((none : Option (List Snp)), (9 : Nat))⟩ : SimpleContext Nat)
      "g2" = some (2, [], 9, none) ∧
    (OptimizedContext.build [⟨"s1", ZVal.fin 2, ZVal.fin 1⟩]
        (⟨[⟨"g2", "s1", 5⟩, ⟨"g2", "s2", 3⟩]⟩ : Model)
        (fun _ _ => ((none : Option (List Snp)), (9 : Nat)))).provide_calculation
      "g2" = some (2, [], 9, none) :=
  ⟨(C3_unknown_gene_return (M := Nat)).1
      (⟨[⟨"s1", ZVal.fin 2, ZVal.fin 1⟩],
        ⟨[⟨"g2", "s1", 5⟩, ⟨"g2", "s2", 3⟩]⟩,
        fun _ _ => ((none : Option (List Snp)), (9 : Nat))⟩ : SimpleContext Nat)
      "g2" 9 rfl,
    (C3_unknown_gene_return (M := Nat)).2
      (OptimizedContext.build [⟨"s1", ZVal.fin 2, ZVal.fin 1⟩]
        (⟨[⟨"g2", "s1", 5⟩, ⟨"g2", "s2", 3⟩]⟩ : Model)
        (fun _ _ => ((none : Option (List Snp)), (9 : Nat))))
      "g2" [⟨"g2", "s1", 5⟩, ⟨"g2", "s2", 3⟩] 9 (by decide) rfl⟩

end MetaXcan

namespace MetaXcan

/-! ### Claim C9: gene with no weight rows -/

/-- C9: for a gene with no weight rows in the loaded model, the Optimized
variant's `get_weights` and `provide_calculation` fail with a key-lookup
error (`weight_data[gene]` raises `KeyError`, modelled as `none`), while
the Reference variant's `get_weights` returns an empty table. -/
theorem C9_missing_gene {M : Type} (gwas : List GwasRow) (model : Model)
    (cov : Gene → List Snp → Option (List Snp) × M) (g : Gene)
    (h : model.weights.filter (fun r => r.gene == g) = []) :
    (OptimizedContext.build gwas model cov).get_weights g = none ∧
    (OptimizedContext.build gwas model cov).provide_calculation g = none ∧
    SimpleContext.get_weights (⟨gwas, model, cov⟩ : SimpleContext M) g = [] := by
  have hwd : (OptimizedContext.build gwas model cov).weight_data g = none := by
    simp only [OptimizedContext.build, _prepare_weight_data, h]
    rfl
  refine ⟨hwd, ?_, h⟩
  simp only [OptimizedContext.provide_calculation, hwd]

/-- C9 witness: gene "g" absent from a one-gene model. -/
theorem C9_missing_gene_witness :
    (OptimizedContext.build []
        (⟨[⟨"h", "s", 1⟩]⟩ : Model)
        (fun _ _ => ((none : Option (List Snp)), (0 : Nat)))).get_weights
      "g" = none ∧
    (OptimizedContext.build []
        (⟨[⟨"h", "s", 1⟩]⟩ : Model)
        (fun _ _ => ((none : Option (List Snp)), (0 : Nat)))).provide_calculation
      "g" = none ∧
    SimpleContext.get_weights
      (⟨[], ⟨[⟨"h", "s", 1⟩]⟩,
        fun _ _ => ((none : Option (List Snp)), (0 : Nat))⟩ : SimpleContext Nat)
      "g" = [] :=
  C9_missing_gene [] (⟨[⟨"h", "s", 1⟩]⟩ : Model)
    (fun _ _ => ((none : Option (List Snp)), (0 : Nat))) "g" (by decide)

/-! ### Claim C10: the Reference alignment dict lookups -/

/-- C10: in the Reference variant's alignment step, when the covariance
source serves order `ord` for the candidate SNPs of the joined table,
every dict lookup succeeds — and the whole call returns — iff the served
order stays inside the candidates: if every served SNP is a candidate the
call returns a value, and if some served SNP is outside the candidates
the call fails with a key-lookup error. -/
theorem C10_alignment_lookup {M : Type} (ctx : SimpleContext M) (g : Gene)
    (ord : List Snp) (m : M)
    (hcov : ctx.covariance g ((joinWG (ctx.get_weights g)
      (ctx.get_gwas ((ctx.get_weights g).map (fun r => r.rsid)))).map
        (fun r => r.snp)) = (some ord, m)) :
    ((∀ s ∈ ord, s ∈ (joinWG (ctx.get_weights g)
        (ctx.get_gwas ((ctx.get_weights g).map (fun r => r.rsid)))).map
          (fun r => r.snp)) →
      (ctx.provide_calculation g).isSome = true) ∧
    ((∃ s ∈ ord, s ∉ (joinWG (ctx.get_weights g)
        (ctx.get_gwas ((ctx.get_weights g).map (fun r => r.rsid)))).map
          (fun r => r.snp)) →
      ctx.provide_calculation g = none) := by
  constructor
  · intro hsub
    simp only [SimpleContext.provide_calculation, SimpleContext.get_covariance,
      hcov]
    cases ord with
    | nil => rfl
    | cons a l =>
      simp only [List.isEmpty_cons, Bool.false_eq_true, if_false]
      have hmo : (mapOption (fun s => findLast (fun r => r.snp == s)
          (joinWG (ctx.get_weights g)
            (ctx.get_gwas ((ctx.get_weights g).map (fun r => r.rsid)))))
          (a :: l)).isSome = true := by
        apply mapOption_isSome
        intro s hs
        rw [← mem_map_snp_iff]
        exact hsub s hs
      obtain ⟨rows, hrows⟩ := Option.isSome_iff_exists.mp hmo
      rw [hrows]
      rfl
  · intro ⟨s, hs, hnot⟩
    simp only [SimpleContext.provide_calculation, SimpleContext.get_covariance,
      hcov]
    cases ord with
    | nil => cases hs
    | cons a l =>
      simp only [List.isEmpty_cons, Bool.false_eq_true, if_false]
      have hnone : findLast (fun r => r.snp == s)
          (joinWG (ctx.get_weights g)
            (ctx.get_gwas ((ctx.get_weights g).map (fun r => r.rsid)))) = none := by
        cases hfl : findLast (fun r => r.snp == s)
            (joinWG (ctx.get_weights g)
              (ctx.get_gwas ((ctx.get_weights g).map (fun r => r.rsid)))) with
        | none => rfl
        | some x =>
          exfalso
          apply hnot
          rw [mem_map_snp_iff, hfl]
          rfl
      rw [mapOption_eq_none hs hnone]

/-- C10 witness: at the §8 scenario the served order [s2, s1] is inside
the candidates [s1, s2], so the Reference call returns a value. -/
theorem C10_alignment_lookup_witness :
    (SimpleContext.provide_calculation
      (⟨[⟨"s1", ZVal.fin 2, ZVal.fin 1⟩, ⟨"s2", ZVal.fin (-1), ZVal.fin (-2)⟩],
        ⟨[⟨"G1", "s1", 5⟩, ⟨"G1", "s2", 3⟩, ⟨"G1", "s3", 1⟩]⟩,
        fun _ _ => (some ["s2", "s1"], (7 : Nat))⟩ : SimpleContext Nat)
      "G1").isSome = true :=
  (C10_alignment_lookup
    (⟨[⟨"s1", ZVal.fin 2, ZVal.fin 1⟩, ⟨"s2", ZVal.fin (-1), ZVal.fin (-2)⟩],
      ⟨[⟨"G1", "s1", 5⟩, ⟨"G1", "s2", 3⟩, ⟨"G1", "s3", 1⟩]⟩,
      fun _ _ => (some ["s2", "s1"], (7 : Nat))⟩ : SimpleContext Nat)
    "G1" ["s2", "s1"] 7 rfl).1 (by decide)

end MetaXcan

namespace MetaXcan

/-! ### Claim C7: data intersection -/

/-- C7: both variants' `get_data_intersection` return exactly the genes
with a weight row whose rsid is a GWAS key, and exactly those rsids; the
returned SNPs are a subset of `get_model_snps()` and of the GWAS SNPs. -/
theorem C7_data_intersection (model : Model) (gwas : List GwasRow) :
    (∀ g : Gene, g ∈ (_data_intersection model gwas).1 ↔
      ∃ r ∈ model.weights, r.gene = g ∧ ∃ gr ∈ gwas, gr.snp = r.rsid) ∧
    (∀ g : Gene, g ∈ (_data_intersection_2 model (_prepare_gwas_data gwas)).1 ↔
      ∃ r ∈ model.weights, r.gene = g ∧ ∃ gr ∈ gwas, gr.snp = r.rsid) ∧
    (∀ s : Snp, s ∈ (_data_intersection model gwas).2 ↔
      ∃ r ∈ model.weights, r.rsid = s ∧ ∃ gr ∈ gwas, gr.snp = s) ∧
    (∀ s : Snp, s ∈ (_data_intersection_2 model (_prepare_gwas_data gwas)).2 ↔
      ∃ r ∈ model.weights, r.rsid = s ∧ ∃ gr ∈ gwas, gr.snp = s) ∧
    (∀ (M : Type) (cov : Gene → List Snp → Option (List Snp) × M) (s : Snp),
      s ∈ (_data_intersection model gwas).2 →
        s ∈ SimpleContext.get_model_snps
          (⟨gwas, model, cov⟩ : SimpleContext M) ∧
        ∃ gr ∈ gwas, gr.snp = s) := by
  have h3 : ∀ s : Snp, s ∈ (_data_intersection model gwas).2 ↔
      ∃ r ∈ model.weights, r.rsid = s ∧ ∃ gr ∈ gwas, gr.snp = s := by
    intro s
    simp only [_data_intersection, List.mem_dedup, List.mem_map,
      List.mem_flatMap, List.mem_filter, beq_iff_eq]
    constructor
    · rintro ⟨x, ⟨wr, hwr, hx⟩, hs⟩
      obtain ⟨gr, ⟨hgr, hsnp⟩, rfl⟩ := hx
      exact ⟨wr, hwr, hs, gr, hgr, by rw [hsnp, hs]⟩
    · rintro ⟨r, hr, hs, gr, hgr, hsnp⟩
      exact ⟨(r, gr), ⟨r, hr, gr, ⟨hgr, by rw [hsnp, hs]⟩, rfl⟩, hs⟩
  refine ⟨?_, ?_, h3, ?_, ?_⟩
  · intro g
    simp only [_data_intersection, List.mem_dedup, List.mem_map,
      List.mem_flatMap, List.mem_filter, beq_iff_eq]
    constructor
    · rintro ⟨x, ⟨wr, hwr, hx⟩, hg⟩
      obtain ⟨gr, ⟨hgr, hsnp⟩, rfl⟩ := hx
      exact ⟨wr, hwr, hg, gr, hgr, hsnp⟩
    · rintro ⟨r, hr, hg, gr, hgr, hsnp⟩
      exact ⟨(r, gr), ⟨r, hr, gr, ⟨hgr, hsnp⟩, rfl⟩, hg⟩
  · intro g
    simp only [_data_intersection_2, _prepare_gwas_data, List.mem_dedup,
      List.mem_map, List.mem_filter, findLast_isSome, beq_iff_eq]
    constructor
    · rintro ⟨r, ⟨hr, gr, hgr, hsnp⟩, hg⟩
      exact ⟨r, hr, hg, gr, hgr, hsnp⟩
    · rintro ⟨r, hr, hg, gr, hgr, hsnp⟩
      exact ⟨r, ⟨hr, gr, hgr, hsnp⟩, hg⟩
  · intro s
    simp only [_data_intersection_2, _prepare_gwas_data, List.mem_dedup,
      List.mem_map, List.mem_filter, findLast_isSome, beq_iff_eq]
    constructor
    · rintro ⟨r, ⟨hr, gr, hgr, hsnp⟩, hs⟩
      exact ⟨r, hr, hs, gr, hgr, by rw [hsnp, hs]⟩
    · rintro ⟨r, hr, hs, gr, hgr, hsnp⟩
      exact ⟨r, ⟨hr, gr, hgr, by rw [hsnp, hs]⟩, hs⟩
  · intro M cov s hs
    obtain ⟨r, hr, hrs, gr, hgr, hsnp⟩ := (h3 s).mp hs
    constructor
    · simp only [SimpleContext.get_model_snps, List.mem_dedup, List.mem_map]
      exact ⟨r, hr, hrs⟩
    · exact ⟨gr, hgr, hsnp⟩

/-- C7 witness: a one-row model and a matching GWAS row, with the subset
conjunct instantiated at SNP s1. -/
theorem C7_data_intersection_witness :
    "s1" ∈ SimpleContext.get_model_snps
      (⟨[⟨"s1", ZVal.fin 2, ZVal.fin 1⟩], ⟨[⟨"G1", "s1", 5⟩]⟩,
        fun _ _ => ((none : Option (List Snp)), (0 : Nat))⟩ : SimpleContext Nat) ∧
    ∃ gr ∈ [(⟨"s1", ZVal.fin 2, ZVal.fin 1⟩ : GwasRow)], gr.snp = "s1" :=
  (C7_data_intersection (⟨[⟨"G1", "s1", 5⟩]⟩ : Model)
    [⟨"s1", ZVal.fin 2, ZVal.fin 1⟩]).2.2.2.2 Nat
    (fun _ _ => ((none : Option (List Snp)), (0 : Nat))) "s1" (by decide)

end MetaXcan

namespace MetaXcan

/-! ### Claim C6: sanitize drops non-finite z-scores -/

/-- C6: `sanitize` restricts the table to the {snp, zscore, beta}
columns, its output has no row with a non-finite z-score (the output is
exactly the finite-z filter of the projected input), and at most one
warning is logged per call. -/
theorem C6_sanitize (gwas : List WideGwasRow) :
    (∀ r ∈ (_sanitized_gwas gwas).1, r.zscore.isFinite = true) ∧
    (_sanitized_gwas gwas).1 =
      (gwas.map (fun r => (⟨r.snp, r.zscore, r.beta⟩ : GwasRow))).filter
        (fun r => r.zscore.isFinite) ∧
    (_sanitized_gwas gwas).2 ≤ 1 := by
  simp only [_sanitized_gwas]
  by_cases h : (gwas.map (fun r => (⟨r.snp, r.zscore, r.beta⟩ : GwasRow))).any
      (fun r => !(r.zscore.isFinite)) = true
  · rw [if_pos h]
    refine ⟨?_, rfl, Nat.le_refl 1⟩
    intro r hr
    exact (List.mem_filter.mp hr).2
  · rw [if_neg h]
    have hall : ∀ r ∈ gwas.map (fun r => (⟨r.snp, r.zscore, r.beta⟩ : GwasRow)),
        r.zscore.isFinite = true := by
      intro r hr
      cases hfin : r.zscore.isFinite with
      | true => rfl
      | false =>
        exfalso
        apply h
        apply List.any_eq_true.mpr
        exact ⟨r, hr, by rw [hfin]; rfl⟩
    exact ⟨hall, (List.filter_eq_self.mpr hall).symm, Nat.zero_le 1⟩

/-- C6 witness: a two-row table with one NaN z-score: the surviving row
has a finite z-score, the output is the finite filter, one warning. -/
theorem C6_sanitize_witness :
    (⟨"s1", ZVal.fin 1, ZVal.nan⟩ : GwasRow).zscore.isFinite = true ∧
    (_sanitized_gwas [⟨"s1", ZVal.fin 1, ZVal.nan, []⟩,
      ⟨"s2", ZVal.nan, ZVal.nan, []⟩]).2 ≤ 1 :=
  ⟨(C6_sanitize [⟨"s1", ZVal.fin 1, ZVal.nan, []⟩,
      ⟨"s2", ZVal.nan, ZVal.nan, []⟩]).1
    ⟨"s1", ZVal.fin 1, ZVal.nan⟩ (by decide),
   (C6_sanitize [⟨"s1", ZVal.fin 1, ZVal.nan, []⟩,
      ⟨"s2", ZVal.nan, ZVal.nan, []⟩]).2.2⟩

/-! ### Claim C5: GWAS preparation -/

/-- C5 counterexample: on an input whose cast fails, the kept data is NOT
the original input as the claim states: the rows dropped by the "NA"
filter (which ran inside the same `try`, before the cast) stay dropped. -/
theorem C5_prepare_gwas_counterexample :
    castFails ⟨[⟨"s1", RawZ.na, ZVal.nan⟩,
      ⟨"s2", RawZ.bad "xyz", ZVal.nan⟩], true⟩ = true ∧
    (_prepare_gwas ⟨[⟨"s1", RawZ.na, ZVal.nan⟩,
      ⟨"s2", RawZ.bad "xyz", ZVal.nan⟩], true⟩).map (fun r => r.snp) = ["s2"] ∧
    (["s2"] : List Snp) ≠ ["s1", "s2"] := by
  refine ⟨by decide, by decide, by decide⟩

/-- C5 (amended): rows whose z-score is the "NA" sentinel are filtered
out before the float64 cast, so no "NA" z-score survives; if the cast
fails, the failure is swallowed and the NA-filtered (still uncast) data
is kept as-is while processing continues; if the cast succeeds every
output z-score is a float64; and when no beta column exists one is
synthesized filled with the missing value.  None of this raises:
`_prepare_gwas` is total. -/
theorem C5_prepare_gwas (t : RawGwasTable) :
    (∀ r ∈ _prepare_gwas t, r.zscore ≠ ZCol.raw RawZ.na) ∧
    (castFails t = true → _prepare_gwas t =
      (t.rows.filter (fun r => !(r.zscore == RawZ.na))).map
        (fun r => ⟨r.snp, ZCol.raw r.zscore,
          if t.hasBeta then r.beta else ZVal.nan⟩)) ∧
    (castFails t = false →
      ∀ r ∈ _prepare_gwas t, ∃ q : ℚ, r.zscore = ZCol.f64 q) ∧
    (t.hasBeta = false → ∀ r ∈ _prepare_gwas t, r.beta = ZVal.nan) := by
  simp only [_prepare_gwas]
  by_cases hall : ((t.rows.filter (fun r => !(r.zscore == RawZ.na))).all
      (fun r => (castZ r.zscore).isSome)) = true
  · rw [if_pos hall]
    refine ⟨?_, ?_, ?_, ?_⟩
    · intro r hr
      obtain ⟨x, _, rfl⟩ := List.mem_map.mp hr
      intro hbad
      exact ZCol.noConfusion hbad
    · intro hcf
      rw [castFails, hall] at hcf
      cases hcf
    · intro _ r hr
      obtain ⟨x, _, rfl⟩ := List.mem_map.mp hr
      exact ⟨(castZ x.zscore).getD 0, rfl⟩
    · intro hb r hr
      obtain ⟨x, _, rfl⟩ := List.mem_map.mp hr
      show (if t.hasBeta = true then x.beta else ZVal.nan) = ZVal.nan
      rw [hb]
      rfl
  · rw [if_neg hall]
    refine ⟨?_, fun _ => rfl, ?_, ?_⟩
    · intro r hr
      obtain ⟨x, hx, rfl⟩ := List.mem_map.mp hr
      have hne : (x.zscore == RawZ.na) = false := by
        have := (List.mem_filter.mp hx).2
        cases hna : (x.zscore == RawZ.na) with
        | false => rfl
        | true => rw [hna] at this; cases this
      intro hbad
      have : x.zscore = RawZ.na := ZCol.raw.inj hbad
      rw [this] at hne
      cases hne
    · intro hcf
      rw [castFails] at hcf
      cases hcast : ((t.rows.filter (fun r => !(r.zscore == RawZ.na))).all
          (fun r => (castZ r.zscore).isSome)) with
      | true => exact absurd hcast hall
      | false => rw [hcast] at hcf; cases hcf
    · intro hb r hr
      obtain ⟨x, _, rfl⟩ := List.mem_map.mp hr
      show (if t.hasBeta = true then x.beta else ZVal.nan) = ZVal.nan
      rw [hb]
      rfl

/-- C5 witness: the amended cast-failure behavior evaluated on a table
with one "NA" row, one uncastable row, and no beta column. -/
theorem C5_prepare_gwas_witness :
    _prepare_gwas ⟨[⟨"s1", RawZ.na, ZVal.nan⟩,
        ⟨"s2", RawZ.bad "xyz", ZVal.fin 4⟩], false⟩ =
      [⟨"s2", ZCol.raw (RawZ.bad "xyz"), ZVal.nan⟩] :=
  (C5_prepare_gwas ⟨[⟨"s1", RawZ.na, ZVal.nan⟩,
    ⟨"s2", RawZ.bad "xyz", ZVal.fin 4⟩], false⟩).2.1 (by decide)

end MetaXcan

namespace MetaXcan

/-! ### Claim C4: two-sided p-values -/

/-- C4: every output row whose z-score survived as a finite number
carries the p-value `2 * (1 - Φ(|z|))`, and every row whose z-score was
not finite carries the "NA" token, the computation never being
attempted. -/
theorem C4_pvalue (cdf : ℚ → ℚ) (results : List ResultRow)
    (minfo : List ModelInfoRow) (flag : Bool) :
    ∀ row ∈ format_output cdf results minfo flag,
      (∀ q : ℚ, row.zscore = Cell.num q →
        row.pvalue = Cell.num (2 * (1 - cdf |q|))) ∧
      ((∀ q : ℚ, row.zscore ≠ Cell.num q) → row.pvalue = Cell.NA) := by
  intro row hrow
  simp only [format_output] at hrow
  rw [mem_sort_values] at hrow
  obtain ⟨rm, hrm, rfl⟩ := List.mem_map.mp hrow
  constructor
  · intro q hq
    revert hq
    cases hz : rm.1.zscore with
    | fin q0 =>
      intro hq
      have hq2 : Cell.num q0 = Cell.num q := hq
      have hq3 : q0 = q := Cell.num.inj hq2
      show Cell.num (2 * (1 - cdf |q0|)) = Cell.num (2 * (1 - cdf |q|))
      rw [hq3]
    | nan => intro hq; exact Cell.noConfusion (show Cell.NA = Cell.num q from hq)
    | inf => intro hq; exact Cell.noConfusion (show Cell.pinf = Cell.num q from hq)
    | ninf => intro hq; exact Cell.noConfusion (show Cell.ninf = Cell.num q from hq)
  · intro hne
    revert hne
    cases hz : rm.1.zscore with
    | fin q0 => intro hne; exact absurd rfl (hne q0)
    | nan => intro _; rfl
    | inf => intro _; rfl
    | ninf => intro _; rfl

end MetaXcan

namespace MetaXcan


/-- C4 witness: at z-score 0 the computed p-value cell is
`2 * (1 - Φ(0))` (which is 1 for the standard normal CDF). -/
theorem C4_pvalue_witness :
    pvWitnessRow.pvalue = Cell.num (2 * (1 - pvWitnessCdf |(0 : ℚ)|)) :=
  (C4_pvalue pvWitnessCdf [pvWitnessResult] [pvWitnessInfo] false
    pvWitnessRow (List.mem_singleton.mpr rfl)).1 0 rfl

/-! ### Claim C8: sorting and the inner merge -/

/-- C8: `format_output`'s rows are sorted ascending on the p-value column
(after missing values became the "NA" token) under the single consistent
Python 2 convention in which numbers order before the "NA" string; and
the preceding merge with ModelInfo is an inner join: an output row for
gene g exists iff g appears in the results and in ModelInfo, so genes
without model metadata are silently dropped. -/
theorem C8_sort_and_merge (cdf : ℚ → ℚ) (results : List ResultRow)
    (minfo : List ModelInfoRow) :
    (∀ flag : Bool, List.Pairwise (fun a b => cellLE a.pvalue b.pvalue = true)
      (format_output cdf results minfo flag)) ∧
    (∀ g : Gene,
      (∃ row ∈ format_output cdf results minfo false, row.gene = g) ↔
      ((∃ r ∈ results, r.gene = g) ∧ (∃ mi ∈ minfo, mi.gene = g))) := by
  constructor
  · intro flag
    simp only [format_output]
    exact sort_values_pairwise _
  · intro g
    constructor
    · rintro ⟨row, hrow, hg⟩
      simp only [format_output] at hrow
      rw [mem_sort_values] at hrow
      obtain ⟨rm, hrm, rfl⟩ := List.mem_map.mp hrow
      obtain ⟨r, hr, hx⟩ := List.mem_flatMap.mp hrm
      obtain ⟨mi, hmi, rfl⟩ := List.mem_map.mp hx
      have hgr : r.gene = g := hg
      refine ⟨⟨r, hr, hgr⟩, ⟨mi, (List.mem_filter.mp hmi).1, ?_⟩⟩
      have hmg : mi.gene = r.gene := beq_iff_eq.mp (List.mem_filter.mp hmi).2
      rw [hmg, hgr]
    · rintro ⟨⟨r, hr, hgr⟩, mi, hmi, hgm⟩
      refine ⟨{ gene := r.gene
                gene_name := mi.gene_name
                zscore := fillna r.zscore
                effect_size := fillna r.effect_size
                pvalue := fillna (pvalueOf cdf r.zscore)
                var_g := fillna r.var_g
                pred_perf_r2 := fillna mi.pred_perf_r2
                pred_perf_pval := fillna mi.pred_perf_pval
                pred_perf_qval := fillna mi.pred_perf_qval
                n_snps_used := fillna r.n_snps_used
                n_snps_in_cov := _to_int (fillna r.n_snps_in_cov)
                n_snps_in_model := fillna mi.n_snps_in_model }, ?_, hgr⟩
      simp only [format_output]
      rw [mem_sort_values]
      apply List.mem_map.mpr
      refine ⟨(r, mi), ?_, rfl⟩
      apply List.mem_flatMap.mpr
      refine ⟨r, hr, ?_⟩
      apply List.mem_map.mpr
      refine ⟨mi, List.mem_filter.mpr ⟨hmi, beq_iff_eq.mpr ?_⟩, rfl⟩
      rw [hgm, hgr]

/-- C8 witness: with one matching gene and one orphan gene in the
results, an output row exists for the matching gene. -/
theorem C8_sort_and_merge_witness :
    ∃ row ∈ format_output pvWitnessCdf
      [⟨"orphan", ZVal.fin 1, ZVal.nan, ZVal.nan, ZVal.nan, ZVal.nan, 1⟩,
       ⟨"g", ZVal.fin 0, ZVal.nan, ZVal.nan, ZVal.nan, ZVal.nan, 1⟩]
      [⟨"g", "GENE", ZVal.nan, ZVal.nan, ZVal.nan, ZVal.nan⟩] false,
      row.gene = "g" :=
  ((C8_sort_and_merge pvWitnessCdf
      [⟨"orphan", ZVal.fin 1, ZVal.nan, ZVal.nan, ZVal.nan, ZVal.nan, 1⟩,
       ⟨"g", ZVal.fin 0, ZVal.nan, ZVal.nan, ZVal.nan, ZVal.nan, 1⟩]
      [⟨"g", "GENE", ZVal.nan, ZVal.nan, ZVal.nan, ZVal.nan⟩]).2 "g").mpr
    ⟨⟨⟨"g", ZVal.fin 0, ZVal.nan, ZVal.nan, ZVal.nan, ZVal.nan, 1⟩,
        by decide, rfl⟩,
      ⟨⟨"g", "GENE", ZVal.nan, ZVal.nan, ZVal.nan, ZVal.nan⟩,
        by decide, rfl⟩⟩

end MetaXcan
